import Mathlib

/-!
Verification of the panic RAM-log core (src/lib.rs).

Shallow embedding conventions:
* The RAM region is modelled as a byte memory `mem : Nat → Nat` together with
  its length `R`; the region occupies addresses `[0, R)` and addresses `≥ R`
  are the memory beyond the region's end.  Reads of `u8` cells go through
  `% 256`; writes store the given values.
* `PanicInfoMeta` (the fixed header) is serialized at the region's start in
  the wire layout `filename_len (1) | line (4, LE) | column (4, LE) |
  message_len (2, LE) | checksum (1)`, 12 bytes in total, matching
  `size_of::<PanicInfoMeta>()`.  All results proved below are independent of
  the particular ordering of the header fields inside those 12 bytes.
* `&str` values (filename, formatted panic message) are byte lists.  The
  `write!(cursor, "{}", info)` call is modelled as folding `write_str` over
  the list of string pieces the formatter emits.
* The `minimal` cargo feature is a boolean parameter of the encode path.
-/

/-- `size_of::<PanicInfoMeta>()`: 1 + 4 + 4 + 2 + 1 bytes. -/
def metaSize : Nat := 12

/-- Write the byte list `bs` into memory starting at address `off`
(models `core::ptr::copy_nonoverlapping` into the region). -/
def writeBytes (mem : Nat → Nat) (off : Nat) (bs : List Nat) : Nat → Nat :=
  fun a => if off ≤ a ∧ a < off + bs.length then bs.getD (a - off) 0 else mem a

/-- Read `len` bytes of memory starting at `off` (a `&[u8]` view). -/
def subBytes (mem : Nat → Nat) (off len : Nat) : List Nat :=
  (List.range len).map fun i => mem (off + i) % 256

/-- Left fold of `u8` XOR over a byte list, accumulator starting at 0,
exactly as the `for i in .. { xor = xor ^ ram[i] }` loops do. -/
def byteXor (l : List Nat) : Nat :=
  l.foldl (· ^^^ ·) 0

/-- The region bytes from end-of-header to end-of-region, `ram[12..R]`. -/
def regionTail (mem : Nat → Nat) (R : Nat) : List Nat :=
  subBytes mem metaSize (R - metaSize)

/-- The checksum both `panic` and `detect_and_reset` compute:
XOR of all region bytes from the end of the header to the end of the region. -/
def regionXor (mem : Nat → Nat) (R : Nat) : Nat :=
  byteXor (regionTail mem R)

/-- The `PanicInfoMeta` header struct of src/lib.rs. -/
structure PanicInfoMeta where
  filename_len : Nat
  line : Nat
  column : Nat
  message_len : Nat
  xor : Nat
deriving DecidableEq, Repr

/-- The 12 header bytes as stored at the region's start (fields truncated to
their Rust widths: u8 / u32 / u32 / u16 / u8, little endian). -/
def encodeHeader (m : PanicInfoMeta) : List Nat :=
  [m.filename_len % 256,
   m.line % 256, m.line / 256 % 256, m.line / 256 ^ 2 % 256, m.line / 256 ^ 3 % 256,
   m.column % 256, m.column / 256 % 256, m.column / 256 ^ 2 % 256, m.column / 256 ^ 3 % 256,
   m.message_len % 256, m.message_len / 256 % 256,
   m.xor % 256]

/-- Read a little-endian u32 from four bytes of memory. -/
def readU32 (mem : Nat → Nat) (off : Nat) : Nat :=
  mem off % 256 + 256 * (mem (off + 1) % 256) + 256 ^ 2 * (mem (off + 2) % 256)
    + 256 ^ 3 * (mem (off + 3) % 256)

/-- `*(ram.as_ptr() as *const PanicInfoMeta)`: read the header struct from
the first 12 bytes of the region. -/
def readHeader (mem : Nat → Nat) : PanicInfoMeta :=
  { filename_len := mem 0 % 256,
    line := readU32 mem 1,
    column := readU32 mem 5,
    message_len := mem 9 % 256 + 256 * (mem 10 % 256),
    xor := mem 11 % 256 }

/-- `PanicInfoMeta::detect_and_reset()` on region `[0, R)`: read the header,
recompute the XOR over `ram[12..R]`, and on a match zero the header bytes and
return the (previously copied) header; otherwise return `None` and leave the
region untouched.  The pair is (returned value, region memory afterwards). -/
def detect_and_reset (mem : Nat → Nat) (R : Nat) : Option PanicInfoMeta × (Nat → Nat) :=
  let meta := readHeader mem
  if regionXor mem R = meta.xor then
    (some meta, writeBytes mem 0 (List.replicate metaSize 0))
  else
    (none, mem)

/-- `PanicInfoMeta::filename(&self)`: read `filename_len` bytes right after
the header.  Returned as (text bytes, region memory afterwards) so that the
absence of writes is part of the model. -/
def PanicInfoMeta.filename (m : PanicInfoMeta) (mem : Nat → Nat) :
    List Nat × (Nat → Nat) :=
  (subBytes mem metaSize m.filename_len, mem)

/-- `PanicInfoMeta::message(&self)`: read `message_len` bytes right after the
filename bytes. -/
def PanicInfoMeta.message (m : PanicInfoMeta) (mem : Nat → Nat) :
    List Nat × (Nat → Nat) :=
  (subBytes mem (metaSize + m.filename_len) m.message_len, mem)

/-- The `DumbCursor` bounded writer: a byte buffer and a write offset. -/
structure DumbCursor where
  buf : List Nat
  idx : Nat
deriving DecidableEq, Repr

/-- `DumbCursor::write_str`: copy `min(s.len(), buf.len() - idx)` bytes of
`s` to `buf[idx..]`, advance `idx` by the bytes copied.  The Rust method
always returns `Ok(())`; the model is correspondingly total. -/
def write_str (c : DumbCursor) (s : List Nat) : DumbCursor :=
  let bytes_left := c.buf.length - c.idx
  let to_copy := if bytes_left ≥ s.length then s.length else bytes_left
  { buf := c.buf.take c.idx ++ s.take to_copy ++ c.buf.drop (c.idx + to_copy),
    idx := c.idx + to_copy }

/-- A `core::panic::Location`: filename bytes, line, column (both u32). -/
structure Location where
  file : List Nat
  line : Nat
  column : Nat
deriving DecidableEq, Repr

/-- The clamped filename length the panic handler records:
`min(file.len(), 255)` when a location is available, else 0. -/
def locFilenameLen (loc : Option Location) : Nat :=
  match loc with
  | some l => if l.file.length > 255 then 255 else l.file.length
  | none => 0

/-- Panic handler, step 2: copy the (clamped) filename right after the
header; with no location the region is untouched. -/
def panicMem1 (mem : Nat → Nat) (loc : Option Location) : Nat → Nat :=
  match loc with
  | some l =>
      writeBytes mem metaSize
        (l.file.take (if l.file.length > 255 then 255 else l.file.length))
  | none => mem

/-- Panic handler, step 3 (full mode): the cursor over
`ram[12 + filename_len .. R]` after all the formatter's `write_str` calls. -/
def panicCursor (mem : Nat → Nat) (R : Nat) (loc : Option Location)
    (msgs : List (List Nat)) : DumbCursor :=
  let start := metaSize + locFilenameLen loc
  msgs.foldl write_str ⟨subBytes (panicMem1 mem loc) start (R - start), 0⟩

/-- The recorded `message_len`: the cursor's final offset cast to u16 in full
mode, 0 in minimal mode. -/
def panicMessageLen (mem : Nat → Nat) (R : Nat) (loc : Option Location)
    (msgs : List (List Nat)) (minimal : Bool) : Nat :=
  if minimal then 0 else (panicCursor mem R loc msgs).idx % 2 ^ 16

/-- The region memory after filename and message writes, before the header
block is written. -/
def panicMem2 (mem : Nat → Nat) (R : Nat) (loc : Option Location)
    (msgs : List (List Nat)) (minimal : Bool) : Nat → Nat :=
  if minimal then panicMem1 mem loc
  else
    writeBytes (panicMem1 mem loc) (metaSize + locFilenameLen loc)
      (panicCursor mem R loc msgs).buf

/-- The completed header the panic handler assembles: location fields,
message length, and the XOR of `ram[12..R]` as it stands after the payload
writes. -/
def panicMeta (mem : Nat → Nat) (R : Nat) (loc : Option Location)
    (msgs : List (List Nat)) (minimal : Bool) : PanicInfoMeta :=
  { filename_len := locFilenameLen loc,
    line := match loc with | some l => l.line | none => 0,
    column := match loc with | some l => l.column | none => 0,
    message_len := panicMessageLen mem R loc msgs minimal,
    xor := regionXor (panicMem2 mem R loc msgs minimal) R }

/-- The whole encode path of the `panic` handler: payload writes, checksum,
then the completed header written as a single 12-byte block at the region's
start. -/
def panicEncode (mem : Nat → Nat) (R : Nat) (loc : Option Location)
    (msgs : List (List Nat)) (minimal : Bool) : Nat → Nat :=
  writeBytes (panicMem2 mem R loc msgs minimal) 0
    (encodeHeader (panicMeta mem R loc msgs minimal))

/-- Flip bit `b` of the byte at address `p`. -/
def flipBit (mem : Nat → Nat) (p b : Nat) : Nat → Nat :=
  fun a => if a = p then mem a ^^^ 2 ^ b else mem a

/-- The all-zero region memory. -/
def zeroMem : Nat → Nat := fun _ => 0

/-- The bytes of the filename "x.rs". -/
def fileXrs : List Nat := [120, 46, 114, 115]

/-- The bytes of the message "boom". -/
def msgBoom : List Nat := [98, 111, 111, 109]

/-- The panic location "x.rs", line 12, column 5. -/
def locXrs : Location := ⟨fileXrs, 12, 5⟩

/-- The spec's round-trip scenario: encode filename "x.rs", line 12,
column 5, message "boom" into an initially zeroed region of size `R`
in full (non-minimal) mode. -/
def encXrs (R : Nat) : Nat → Nat :=
  panicEncode zeroMem R (some locXrs) [msgBoom] false

/-! ### Basic lemmas about the memory and checksum primitives -/

theorem writeBytes_out (mem : Nat → Nat) (off : Nat) (bs : List Nat) (a : Nat)
    (h : a < off ∨ off + bs.length ≤ a) : writeBytes mem off bs a = mem a := by
  unfold writeBytes
  rw [if_neg]
  rintro ⟨h1, h2⟩
  omega

theorem writeBytes_in (mem : Nat → Nat) (off : Nat) (bs : List Nat) (a : Nat)
    (h1 : off ≤ a) (h2 : a < off + bs.length) :
    writeBytes mem off bs a = bs.getD (a - off) 0 := by
  unfold writeBytes
  rw [if_pos ⟨h1, h2⟩]

theorem byteXor_nil : byteXor [] = 0 := rfl

theorem foldl_xor_shift (l : List Nat) :
    ∀ a : Nat, l.foldl (· ^^^ ·) a = a ^^^ byteXor l := by
  induction l with
  | nil => intro a; simp [byteXor]
  | cons x l ih =>
      intro a
      simp only [byteXor, List.foldl_cons]
      rw [ih (a ^^^ x), ih (0 ^^^ x), Nat.zero_xor, Nat.xor_assoc]

theorem byteXor_cons (x : Nat) (l : List Nat) : byteXor (x :: l) = x ^^^ byteXor l := by
  simp only [byteXor, List.foldl_cons]
  rw [foldl_xor_shift, Nat.zero_xor]
  rfl

theorem byteXor_append (l1 l2 : List Nat) :
    byteXor (l1 ++ l2) = byteXor l1 ^^^ byteXor l2 := by
  induction l1 with
  | nil => simp [byteXor_nil, Nat.zero_xor]
  | cons x l ih => rw [List.cons_append, byteXor_cons, byteXor_cons, ih, Nat.xor_assoc]

theorem byteXor_replicate_zero (n : Nat) : byteXor (List.replicate n 0) = 0 := by
  induction n with
  | zero => rfl
  | succ n ih => rw [List.replicate_succ, byteXor_cons, ih]; exact Nat.zero_xor 0

theorem byteXor_lt (l : List Nat) (h : ∀ x ∈ l, x < 256) : byteXor l < 256 := by
  induction l with
  | nil => simp [byteXor_nil]
  | cons x l ih =>
      rw [byteXor_cons]
      have h1 : x < 2 ^ 8 := h x (List.mem_cons_self x l)
      have h2 : byteXor l < 2 ^ 8 := ih fun y hy => h y (List.mem_cons_of_mem x hy)
      exact Nat.xor_lt_two_pow h1 h2

theorem subBytes_length (mem : Nat → Nat) (off len : Nat) :
    (subBytes mem off len).length = len := by
  simp [subBytes]

theorem subBytes_congr (mem mem' : Nat → Nat) (off len : Nat)
    (h : ∀ i, i < len → mem (off + i) = mem' (off + i)) :
    subBytes mem off len = subBytes mem' off len := by
  unfold subBytes
  apply List.map_congr_left
  intro i hi
  rw [h i (List.mem_range.mp hi)]

theorem subBytes_lt (mem : Nat → Nat) (off len : Nat) :
    ∀ x ∈ subBytes mem off len, x < 256 := by
  intro x hx
  simp only [subBytes, List.mem_map] at hx
  obtain ⟨i, _, rfl⟩ := hx
  exact Nat.mod_lt _ (by norm_num)

theorem regionXor_lt (mem : Nat → Nat) (R : Nat) : regionXor mem R < 256 :=
  byteXor_lt _ (subBytes_lt mem metaSize (R - metaSize))

theorem regionXor_congr (mem mem' : Nat → Nat) (R : Nat)
    (h : ∀ a, metaSize ≤ a → a < R → mem a = mem' a) :
    regionXor mem R = regionXor mem' R := by
  unfold regionXor regionTail
  rw [subBytes_congr]
  intro i hi
  exact h (metaSize + i) (Nat.le_add_right _ _) (by unfold metaSize at *; omega)

theorem subBytes_succ (mem : Nat → Nat) (off len : Nat) :
    subBytes mem off (len + 1) = subBytes mem off len ++ [mem (off + len) % 256] := by
  unfold subBytes
  rw [List.range_succ, List.map_append, List.map_singleton]

theorem regionXor_succ (mem : Nat → Nat) (R : Nat) (h : metaSize ≤ R) :
    regionXor mem (R + 1) = regionXor mem R ^^^ mem R % 256 := by
  unfold regionXor regionTail
  have h1 : R + 1 - metaSize = (R - metaSize) + 1 := by omega
  rw [h1, subBytes_succ, byteXor_append]
  have h2 : metaSize + (R - metaSize) = R := by omega
  rw [h2, byteXor_cons, byteXor_nil, Nat.xor_zero]

theorem regionXor_small (mem : Nat → Nat) (R : Nat) (h : R ≤ metaSize) :
    regionXor mem R = 0 := by
  unfold regionXor regionTail subBytes
  have h1 : R - metaSize = 0 := by omega
  rw [h1]
  rfl

/-! ### Header serialization and the bit-flip behaviour of the checksum -/

theorem encodeHeader_length (m : PanicInfoMeta) : (encodeHeader m).length = metaSize := by
  simp [encodeHeader, metaSize]

theorem readHeader_writeHeader (mem : Nat → Nat) (m : PanicInfoMeta) :
    readHeader (writeBytes mem 0 (encodeHeader m)) =
      ⟨m.filename_len % 256, m.line % 2 ^ 32, m.column % 2 ^ 32,
       m.message_len % 2 ^ 16, m.xor % 256⟩ := by
  have hb : ∀ a, a < 12 →
      writeBytes mem 0 (encodeHeader m) a = (encodeHeader m).getD a 0 := by
    intro a ha
    rw [writeBytes_in mem 0 (encodeHeader m) a (Nat.zero_le a)
      (by rw [encodeHeader_length]; unfold metaSize; omega), Nat.sub_zero]
  simp only [readHeader, readU32]
  norm_num
  rw [hb 0 (by norm_num), hb 1 (by norm_num), hb 2 (by norm_num), hb 3 (by norm_num),
    hb 4 (by norm_num), hb 5 (by norm_num), hb 6 (by norm_num), hb 7 (by norm_num),
    hb 8 (by norm_num), hb 9 (by norm_num), hb 10 (by norm_num), hb 11 (by norm_num)]
  simp only [encodeHeader, List.getD_cons_zero, List.getD_cons_succ]
  refine ⟨?_, ?_, ?_, ?_, ?_⟩ <;> omega

theorem regionXor_writeHeader (mem : Nat → Nat) (bs : List Nat) (R : Nat)
    (h : bs.length ≤ metaSize) :
    regionXor (writeBytes mem 0 bs) R = regionXor mem R := by
  apply regionXor_congr
  intro a ha _
  exact writeBytes_out mem 0 bs a (Or.inr (by omega))

theorem flipBit_ne (mem : Nat → Nat) (p b a : Nat) (h : a ≠ p) :
    flipBit mem p b a = mem a := by
  unfold flipBit
  rw [if_neg h]

theorem flipBit_self (mem : Nat → Nat) (p b : Nat) :
    flipBit mem p b p = mem p ^^^ 2 ^ b := by
  unfold flipBit
  rw [if_pos rfl]

theorem two_pow_lt_256 (b : Nat) (hb : b < 8) : 2 ^ b < 256 := by
  calc 2 ^ b ≤ 2 ^ 7 := Nat.pow_le_pow_right (by norm_num) (by omega)
    _ < 256 := by norm_num

theorem xor_two_pow_ne (x b : Nat) : x ^^^ 2 ^ b ≠ x := by
  intro h
  have h1 : x ^^^ (x ^^^ 2 ^ b) = x ^^^ x := by rw [h]
  rw [Nat.xor_cancel_left, Nat.xor_self] at h1
  exact absurd h1 (Nat.pos_iff_ne_zero.mp (Nat.pos_pow_of_pos b (by norm_num)))

theorem regionXor_flip (mem : Nat → Nat) (R p b : Nat) (hp1 : metaSize ≤ p) (hp2 : p < R)
    (hm : mem p < 256) (hb : b < 8) :
    regionXor (flipBit mem p b) R = regionXor mem R ^^^ 2 ^ b := by
  induction R with
  | zero => omega
  | succ R ih =>
      rcases Nat.lt_or_ge p R with h | h
      · have h12 : metaSize ≤ R := le_trans hp1 (le_of_lt h)
        rw [regionXor_succ _ _ h12, regionXor_succ _ _ h12, ih h,
          flipBit_ne mem p b R (by omega), Nat.xor_assoc, Nat.xor_assoc,
          Nat.xor_comm (2 ^ b)]
      · have hpR : p = R := by omega
        subst hpR
        have hm8 : mem p < 2 ^ 8 := by omega
        have hb8 : 2 ^ b < 2 ^ 8 := by
          calc 2 ^ b ≤ 2 ^ 7 := Nat.pow_le_pow_right (by norm_num) (by omega)
            _ < 2 ^ 8 := by norm_num
        have hx : mem p ^^^ 2 ^ b < 2 ^ 8 := Nat.xor_lt_two_pow hm8 hb8
        rw [regionXor_succ _ _ hp1, regionXor_succ _ _ hp1, flipBit_self,
          regionXor_congr (flipBit mem p b) mem p
            (fun a _ ha2 => flipBit_ne mem p b a (by omega)),
          Nat.mod_eq_of_lt (show mem p ^^^ 2 ^ b < 256 by omega),
          Nat.mod_eq_of_lt hm, Nat.xor_assoc]

/-! ### The bounded writer -/

theorem write_str_idx (c : DumbCursor) (s : List Nat) :
    (write_str c s).idx = c.idx + min s.length (c.buf.length - c.idx) := by
  simp only [write_str]
  split <;> omega

theorem write_str_buf_length (c : DumbCursor) (s : List Nat) (h : c.idx ≤ c.buf.length) :
    (write_str c s).buf.length = c.buf.length := by
  simp only [write_str]
  split <;>
    · simp only [List.length_append, List.length_take, List.length_drop]
      omega

theorem foldl_write_str_inv (msgs : List (List Nat)) :
    ∀ c : DumbCursor, c.idx ≤ c.buf.length →
      (msgs.foldl write_str c).buf.length = c.buf.length ∧
        (msgs.foldl write_str c).idx ≤ c.buf.length := by
  induction msgs with
  | nil => intro c h; exact ⟨rfl, h⟩
  | cons s msgs ih =>
      intro c h
      have h1 : (write_str c s).buf.length = c.buf.length := write_str_buf_length c s h
      have h2 : (write_str c s).idx ≤ (write_str c s).buf.length := by
        rw [h1, write_str_idx]
        omega
      obtain ⟨e1, e2⟩ := ih (write_str c s) h2
      simp only [List.foldl_cons]
      exact ⟨e1.trans h1, le_of_le_of_eq (e2.trans (le_of_eq h1)) rfl⟩

theorem panicCursor_buf_length (mem : Nat → Nat) (R : Nat) (loc : Option Location)
    (msgs : List (List Nat)) :
    (panicCursor mem R loc msgs).buf.length = R - (metaSize + locFilenameLen loc) := by
  unfold panicCursor
  have h := foldl_write_str_inv msgs
    ⟨subBytes (panicMem1 mem loc) (metaSize + locFilenameLen loc)
      (R - (metaSize + locFilenameLen loc)), 0⟩ (Nat.zero_le _)
  rw [h.1]
  exact subBytes_length _ _ _

theorem panicCursor_idx_le (mem : Nat → Nat) (R : Nat) (loc : Option Location)
    (msgs : List (List Nat)) :
    (panicCursor mem R loc msgs).idx ≤ R - (metaSize + locFilenameLen loc) := by
  unfold panicCursor
  have h := foldl_write_str_inv msgs
    ⟨subBytes (panicMem1 mem loc) (metaSize + locFilenameLen loc)
      (R - (metaSize + locFilenameLen loc)), 0⟩ (Nat.zero_le _)
  have h2 := h.2
  rwa [subBytes_length] at h2


/-! ### Structure of the encode path -/

theorem locFilenameLen_some (l : Location) :
    locFilenameLen (some l) = if l.file.length > 255 then 255 else l.file.length := rfl

theorem locFilenameLen_none : locFilenameLen none = 0 := rfl

theorem panicMem1_some (mem : Nat → Nat) (l : Location) :
    panicMem1 mem (some l) =
      writeBytes mem metaSize
        (l.file.take (if l.file.length > 255 then 255 else l.file.length)) := rfl

theorem panicMem1_none (mem : Nat → Nat) : panicMem1 mem none = mem := rfl

theorem locFilenameLen_le (l : Location) : locFilenameLen (some l) ≤ l.file.length := by
  rw [locFilenameLen_some]
  split <;> omega

theorem locFilenameLen_le_255 (loc : Option Location) : locFilenameLen loc ≤ 255 := by
  cases loc with
  | none => rw [locFilenameLen_none]; omega
  | some l => rw [locFilenameLen_some]; split <;> omega

theorem fileTake_length (l : Location) :
    (l.file.take (if l.file.length > 255 then 255 else l.file.length)).length =
      locFilenameLen (some l) := by
  rw [List.length_take, locFilenameLen_some]
  split <;> omega

theorem panicMem1_out (mem : Nat → Nat) (loc : Option Location) (a : Nat)
    (h : a < metaSize ∨ metaSize + locFilenameLen loc ≤ a) :
    panicMem1 mem loc a = mem a := by
  cases loc with
  | none => rfl
  | some l =>
      rw [panicMem1_some]
      apply writeBytes_out
      rw [fileTake_length]
      exact h

theorem panicMem1_in (mem : Nat → Nat) (l : Location) (i : Nat)
    (h : i < locFilenameLen (some l)) :
    panicMem1 mem (some l) (metaSize + i) = l.file.getD i 0 := by
  rw [panicMem1_some,
    writeBytes_in _ _ _ _ (Nat.le_add_right _ _) (by rw [fileTake_length]; omega),
    Nat.add_sub_cancel_left, List.getD_eq_getElem?_getD, List.getElem?_take_of_lt
      (by rw [locFilenameLen_some] at h; exact h),
    ← List.getD_eq_getElem?_getD]

theorem panicMem2_true (mem : Nat → Nat) (R : Nat) (loc : Option Location)
    (msgs : List (List Nat)) :
    panicMem2 mem R loc msgs true = panicMem1 mem loc := rfl

theorem panicMem2_false (mem : Nat → Nat) (R : Nat) (loc : Option Location)
    (msgs : List (List Nat)) :
    panicMem2 mem R loc msgs false =
      writeBytes (panicMem1 mem loc) (metaSize + locFilenameLen loc)
        (panicCursor mem R loc msgs).buf := rfl

theorem panicMessageLen_true (mem : Nat → Nat) (R : Nat) (loc : Option Location)
    (msgs : List (List Nat)) :
    panicMessageLen mem R loc msgs true = 0 := rfl

theorem panicMessageLen_false (mem : Nat → Nat) (R : Nat) (loc : Option Location)
    (msgs : List (List Nat)) :
    panicMessageLen mem R loc msgs false = (panicCursor mem R loc msgs).idx % 2 ^ 16 := rfl

theorem panicMem2_out (mem : Nat → Nat) (R : Nat) (loc : Option Location)
    (msgs : List (List Nat)) (minimal : Bool) (a : Nat)
    (h : a < metaSize + locFilenameLen loc ∨
      metaSize + locFilenameLen loc + (R - (metaSize + locFilenameLen loc)) ≤ a) :
    panicMem2 mem R loc msgs minimal a = panicMem1 mem loc a := by
  cases minimal with
  | true => rw [panicMem2_true]
  | false =>
      rw [panicMem2_false]
      apply writeBytes_out
      rw [panicCursor_buf_length]
      exact h

theorem panicEncode_ge (mem : Nat → Nat) (R : Nat) (loc : Option Location)
    (msgs : List (List Nat)) (minimal : Bool) (a : Nat) (h : metaSize ≤ a) :
    panicEncode mem R loc msgs minimal a = panicMem2 mem R loc msgs minimal a := by
  unfold panicEncode
  apply writeBytes_out
  rw [encodeHeader_length]
  omega

theorem readHeader_panicEncode (mem : Nat → Nat) (R : Nat) (loc : Option Location)
    (msgs : List (List Nat)) (minimal : Bool) :
    readHeader (panicEncode mem R loc msgs minimal) =
      ⟨(panicMeta mem R loc msgs minimal).filename_len % 256,
       (panicMeta mem R loc msgs minimal).line % 2 ^ 32,
       (panicMeta mem R loc msgs minimal).column % 2 ^ 32,
       (panicMeta mem R loc msgs minimal).message_len % 2 ^ 16,
       (panicMeta mem R loc msgs minimal).xor % 256⟩ :=
  readHeader_writeHeader _ _

theorem regionXor_panicEncode (mem : Nat → Nat) (R : Nat) (loc : Option Location)
    (msgs : List (List Nat)) (minimal : Bool) :
    regionXor (panicEncode mem R loc msgs minimal) R =
      (panicMeta mem R loc msgs minimal).xor := by
  unfold panicEncode
  rw [regionXor_writeHeader _ _ _ (le_of_eq (encodeHeader_length _))]
  rfl

theorem panicMessageLen_le (mem : Nat → Nat) (R : Nat) (loc : Option Location)
    (msgs : List (List Nat)) (minimal : Bool) :
    panicMessageLen mem R loc msgs minimal ≤ R - (metaSize + locFilenameLen loc) := by
  cases minimal with
  | true => rw [panicMessageLen_true]; omega
  | false =>
      rw [panicMessageLen_false]
      exact le_trans (Nat.mod_le _ _) (panicCursor_idx_le mem R loc msgs)

/-! ### Behaviour of detect_and_reset -/

theorem detect_eq_some (mem : Nat → Nat) (R : Nat)
    (h : regionXor mem R = (readHeader mem).xor) :
    detect_and_reset mem R =
      (some (readHeader mem), writeBytes mem 0 (List.replicate metaSize 0)) := by
  unfold detect_and_reset
  rw [if_pos h]

theorem detect_eq_none (mem : Nat → Nat) (R : Nat)
    (h : regionXor mem R ≠ (readHeader mem).xor) :
    detect_and_reset mem R = (none, mem) := by
  unfold detect_and_reset
  rw [if_neg h]

theorem getD_replicate_zero (n i : Nat) : (List.replicate n (0 : Nat)).getD i 0 = 0 := by
  induction n generalizing i with
  | zero => cases i <;> rfl
  | succ n ih =>
      rw [List.replicate_succ]
      cases i with
      | zero => rfl
      | succ i => rw [List.getD_cons_succ]; exact ih i

/-- Claim C4: `detect_and_reset` returns a record iff the checksum recomputed
over `[end-of-header, end-of-region)` equals the stored checksum byte; on a
match the returned header is the one read before any modification, the header
bytes are zeroed and the rest of the region is untouched; on a mismatch it
returns absence. -/
theorem claim_c4_detect_and_reset_spec (mem : Nat → Nat) (R : Nat) :
    ((detect_and_reset mem R).1.isSome ↔ regionXor mem R = (readHeader mem).xor)
    ∧ (regionXor mem R = (readHeader mem).xor →
        (detect_and_reset mem R).1 = some (readHeader mem)
        ∧ (∀ a, a < metaSize → (detect_and_reset mem R).2 a = 0)
        ∧ (∀ a, metaSize ≤ a → (detect_and_reset mem R).2 a = mem a))
    ∧ (regionXor mem R ≠ (readHeader mem).xor →
        (detect_and_reset mem R).1 = none) := by
  by_cases h : regionXor mem R = (readHeader mem).xor
  · rw [detect_eq_some mem R h]
    refine ⟨by simp [h], fun _ => ⟨rfl, ?_, ?_⟩, fun hn => absurd h hn⟩
    · intro a ha
      show writeBytes mem 0 (List.replicate metaSize 0) a = 0
      rw [writeBytes_in _ _ _ _ (Nat.zero_le a)
        (by rw [List.length_replicate]; omega)]
      exact getD_replicate_zero _ _
    · intro a ha
      show writeBytes mem 0 (List.replicate metaSize 0) a = mem a
      exact writeBytes_out _ _ _ _ (Or.inr (by rw [List.length_replicate]; omega))
  · rw [detect_eq_none mem R h]
    exact ⟨by simp [h], fun hc => absurd hc h, fun _ => rfl⟩

/-- Witness for C4 at the all-zero region of size 16: the checksum matches,
so a record is returned and the second byte of the region stays 0. -/
theorem claim_c4_witness :
    (detect_and_reset zeroMem 16).1 = some (readHeader zeroMem)
    ∧ (detect_and_reset zeroMem 16).2 1 = 0 :=
  ⟨((claim_c4_detect_and_reset_spec zeroMem 16).2.1 (by decide)).1,
   ((claim_c4_detect_and_reset_spec zeroMem 16).2.1 (by decide)).2.1 1 (by decide)⟩

theorem byteXor_subBytes_zero (mem : Nat → Nat) (off : Nat) :
    ∀ len, (∀ i, i < len → mem (off + i) = 0) → byteXor (subBytes mem off len) = 0 := by
  intro len
  induction len with
  | zero => intro _; rfl
  | succ n ih =>
      intro h
      rw [subBytes_succ, byteXor_append, ih (fun i hi => h i (by omega)),
        h n (by omega), byteXor_cons, byteXor_nil, Nat.xor_zero]
      rfl

/-- Claim C7: on an all-zero region the recomputed checksum 0 matches the
all-zero header's stored checksum, so `detect_and_reset` returns a record
(not absence) whose fields are all zero. -/
theorem claim_c7_all_zero_region (R : Nat) (_h : metaSize ≤ R) :
    (detect_and_reset zeroMem R).1 = some ⟨0, 0, 0, 0, 0⟩ := by
  have hh : readHeader zeroMem = ⟨0, 0, 0, 0, 0⟩ := rfl
  have hx : regionXor zeroMem R = 0 := byteXor_subBytes_zero zeroMem metaSize _
    (fun i _ => rfl)
  rw [detect_eq_some zeroMem R (by rw [hx, hh]), hh]

/-- Witness for C7 at region size 16. -/
theorem claim_c7_witness : (detect_and_reset zeroMem 16).1 = some ⟨0, 0, 0, 0, 0⟩ :=
  claim_c7_all_zero_region 16 (by decide)

/-- Claim C9: the `filename()` and `message()` accessors modify neither the
region nor the record, and two successive calls on the same record return
identical text. -/
theorem claim_c9_read_stability (m : PanicInfoMeta) (mem : Nat → Nat) :
    (m.filename mem).2 = mem ∧ (m.message mem).2 = mem
    ∧ (m.filename ((m.filename mem).2)).1 = (m.filename mem).1
    ∧ (m.message ((m.message mem).2)).1 = (m.message mem).1 :=
  ⟨rfl, rfl, rfl, rfl⟩

/-- Claim C10: on a checksum mismatch `detect_and_reset` returns absence and
leaves every byte of the region unchanged. -/
theorem claim_c10_mismatch_no_write (mem : Nat → Nat) (R : Nat)
    (h : regionXor mem R ≠ (readHeader mem).xor) :
    (detect_and_reset mem R).1 = none
    ∧ ∀ a, (detect_and_reset mem R).2 a = mem a := by
  rw [detect_eq_none mem R h]
  exact ⟨rfl, fun a => rfl⟩

/-- Witness for C10 on the region `mem a = a` of size 13, whose recomputed
checksum 12 differs from the stored byte 11. -/
theorem claim_c10_witness :
    (detect_and_reset (fun a => a) 13).1 = none
    ∧ (detect_and_reset (fun a => a) 13).2 5 = 5 :=
  ⟨(claim_c10_mismatch_no_write (fun a => a) 13 (by decide)).1,
   (claim_c10_mismatch_no_write (fun a => a) 13 (by decide)).2 5⟩

/-- Claim C6: for any cursor state with offset `i ≤ C` (`C` the buffer
capacity) and any input text, `write_str` copies exactly
`min(len(text), C - i)` bytes of the text to `buf[i..]`, drops the excess,
leaves all other buffer bytes unchanged, keeps the capacity, and advances the
offset by the number of bytes copied.  (The Rust method returns `Ok(())`
unconditionally; the model is total.) -/
theorem claim_c6_write_str_spec (c : DumbCursor) (s : List Nat)
    (h : c.idx ≤ c.buf.length) :
    (write_str c s).idx = c.idx + min s.length (c.buf.length - c.idx)
    ∧ (write_str c s).buf.length = c.buf.length
    ∧ (∀ j, j < min s.length (c.buf.length - c.idx) →
        (write_str c s).buf.getD (c.idx + j) 0 = s.getD j 0)
    ∧ (∀ j, j < c.idx → (write_str c s).buf.getD j 0 = c.buf.getD j 0)
    ∧ (∀ j, c.idx + min s.length (c.buf.length - c.idx) ≤ j →
        (write_str c s).buf.getD j 0 = c.buf.getD j 0) := by
  set k := min s.length (c.buf.length - c.idx) with hkdef
  have hks : k ≤ s.length := by omega
  have hkr : k ≤ c.buf.length - c.idx := by omega
  have he : write_str c s =
      ⟨c.buf.take c.idx ++ s.take k ++ c.buf.drop (c.idx + k), c.idx + k⟩ := by
    simp only [write_str]
    have hk : (if c.buf.length - c.idx ≥ s.length then s.length
        else c.buf.length - c.idx) = k := by
      split <;> omega
    rw [hk]
  have l1len : (c.buf.take c.idx).length = c.idx := by
    rw [List.length_take]; omega
  have l2len : (s.take k).length = k := by
    rw [List.length_take]; omega
  have l12len : (c.buf.take c.idx ++ s.take k).length = c.idx + k := by
    rw [List.length_append, l1len, l2len]
  rw [he]
  refine ⟨rfl, ?_, ?_, ?_, ?_⟩
  · simp only [List.length_append, l1len, l2len, List.length_drop]
    omega
  · intro j hj
    rw [List.getD_eq_getElem?_getD,
      List.getElem?_append_left (by rw [l12len]; omega),
      List.getElem?_append_right (by rw [l1len]; omega), l1len,
      Nat.add_sub_cancel_left, List.getElem?_take_of_lt hj,
      ← List.getD_eq_getElem?_getD]
  · intro j hj
    rw [List.getD_eq_getElem?_getD,
      List.getElem?_append_left (by rw [l12len]; omega),
      List.getElem?_append_left (by rw [l1len]; omega),
      List.getElem?_take_of_lt hj, ← List.getD_eq_getElem?_getD]
  · intro j hj
    rw [List.getD_eq_getElem?_getD,
      List.getElem?_append_right (by rw [l12len]; omega), l12len,
      List.getElem?_drop]
    have hidx : c.idx + k + (j - (c.idx + k)) = j := by omega
    rw [hidx, ← List.getD_eq_getElem?_getD]

/-- Witness for C6: a cursor of capacity 3 at offset 1 receiving 3 bytes
copies exactly `min 3 2 = 2` of them. -/
theorem claim_c6_witness :
    (write_str ⟨[0, 0, 0], 1⟩ [7, 8, 9]).idx = 1 + min 3 2
    ∧ (write_str ⟨[0, 0, 0], 1⟩ [7, 8, 9]).buf.getD 1 0 = 7 :=
  ⟨(claim_c6_write_str_spec ⟨[0, 0, 0], 1⟩ [7, 8, 9] (by decide)).1,
   (claim_c6_write_str_spec ⟨[0, 0, 0], 1⟩ [7, 8, 9] (by decide)).2.2.1 0 (by decide)⟩

/-! ### More toolkit: header congruence and subBytes decomposition -/

theorem readHeader_congr (mem mem' : Nat → Nat)
    (h : ∀ a, a < metaSize → mem a = mem' a) : readHeader mem = readHeader mem' := by
  unfold readHeader readU32
  rw [h 0 (by decide), h 1 (by decide), h (1 + 1) (by decide), h (1 + 2) (by decide),
    h (1 + 3) (by decide), h 5 (by decide), h (5 + 1) (by decide), h (5 + 2) (by decide),
    h (5 + 3) (by decide), h 9 (by decide), h 10 (by decide), h 11 (by decide)]

theorem subBytes_split (mem : Nat → Nat) (off len1 len2 : Nat) :
    subBytes mem off (len1 + len2) =
      subBytes mem off len1 ++ subBytes mem (off + len1) len2 := by
  induction len2 with
  | zero =>
      show subBytes mem off len1 = _
      rw [show subBytes mem (off + len1) 0 = [] from rfl, List.append_nil]
  | succ n ih =>
      rw [show len1 + (n + 1) = (len1 + n) + 1 by omega, subBytes_succ, ih,
        subBytes_succ, List.append_assoc,
        show off + (len1 + n) = off + len1 + n by omega]

theorem subBytes_eq_list (mem : Nat → Nat) (off : Nat) (l : List Nat)
    (h : ∀ i, i < l.length → mem (off + i) % 256 = l.getD i 0) :
    subBytes mem off l.length = l := by
  refine List.ext_getElem (by simp [subBytes]) ?_
  intro i h1 h2
  simp only [subBytes, List.getElem_map, List.getElem_range]
  rw [h i h2, List.getD_eq_getElem l 0 h2]

theorem subBytes_writeBytes (mem : Nat → Nat) (off : Nat) (l : List Nat) :
    subBytes (writeBytes mem off l) off l.length = l.map (· % 256) := by
  refine List.ext_getElem (by simp [subBytes]) ?_
  intro i h1 h2
  simp only [subBytes, List.getElem_map, List.getElem_range]
  have hl : i < l.length := by simpa using h2
  rw [writeBytes_in mem off l (off + i) (Nat.le_add_right _ _) (by omega),
    Nat.add_sub_cancel_left, List.getD_eq_getElem l 0 hl]

/-! ### C5, C8: what encode stores -/

theorem panicMeta_xor (mem : Nat → Nat) (R : Nat) (loc : Option Location)
    (msgs : List (List Nat)) (minimal : Bool) :
    (panicMeta mem R loc msgs minimal).xor =
      regionXor (panicMem2 mem R loc msgs minimal) R := rfl

/-- Claim C5: the checksum the panic handler stores is the XOR of every
region byte from end-of-header to end-of-region, computed on the region
contents after the payload writes but before the header is stored; the
completed header is then written as a single 12-byte block at the region's
start; consequently the stored checksum byte also equals the XOR of the
final region's tail. -/
theorem claim_c5_checksum_coverage (mem : Nat → Nat) (R : Nat) (loc : Option Location)
    (msgs : List (List Nat)) (minimal : Bool) :
    (panicMeta mem R loc msgs minimal).xor =
        byteXor (regionTail (panicMem2 mem R loc msgs minimal) R)
    ∧ panicEncode mem R loc msgs minimal =
        writeBytes (panicMem2 mem R loc msgs minimal) 0
          (encodeHeader (panicMeta mem R loc msgs minimal))
    ∧ (readHeader (panicEncode mem R loc msgs minimal)).xor =
        regionXor (panicEncode mem R loc msgs minimal) R := by
  refine ⟨rfl, rfl, ?_⟩
  rw [readHeader_panicEncode]
  show (panicMeta mem R loc msgs minimal).xor % 256 = _
  rw [regionXor_panicEncode]
  exact Nat.mod_eq_of_lt (by rw [panicMeta_xor]; exact regionXor_lt _ _)

/-- Claim C8: with a location available, the stored filename_len is
`min(len(filename), 255)`, exactly that many leading filename bytes sit
right after the header, and line/column are recorded from the location;
with no location, filename_len, line and column are stored as 0. -/
theorem claim_c8_location_fields (mem : Nat → Nat) (R : Nat) (msgs : List (List Nat))
    (minimal : Bool) (l : Location) (hl : l.line < 2 ^ 32) (hc : l.column < 2 ^ 32) :
    ((readHeader (panicEncode mem R (some l) msgs minimal)).filename_len
        = min l.file.length 255
      ∧ (readHeader (panicEncode mem R (some l) msgs minimal)).line = l.line
      ∧ (readHeader (panicEncode mem R (some l) msgs minimal)).column = l.column
      ∧ ∀ i, i < min l.file.length 255 →
          panicEncode mem R (some l) msgs minimal (metaSize + i) = l.file.getD i 0)
    ∧ (readHeader (panicEncode mem R none msgs minimal)).filename_len = 0
    ∧ (readHeader (panicEncode mem R none msgs minimal)).line = 0
    ∧ (readHeader (panicEncode mem R none msgs minimal)).column = 0 := by
  have hmin : locFilenameLen (some l) = min l.file.length 255 := by
    rw [locFilenameLen_some]
    split <;> omega
  refine ⟨⟨?_, ?_, ?_, ?_⟩, ?_, ?_, ?_⟩
  · rw [readHeader_panicEncode]
    show locFilenameLen (some l) % 256 = _
    rw [Nat.mod_eq_of_lt (by have := locFilenameLen_le_255 (some l); omega), hmin]
  · rw [readHeader_panicEncode]
    show l.line % 2 ^ 32 = l.line
    exact Nat.mod_eq_of_lt hl
  · rw [readHeader_panicEncode]
    show l.column % 2 ^ 32 = l.column
    exact Nat.mod_eq_of_lt hc
  · intro i hi
    rw [panicEncode_ge _ _ _ _ _ _ (by omega),
      panicMem2_out _ _ _ _ _ _ (Or.inl (by omega)),
      panicMem1_in _ _ _ (by omega)]
  · rw [readHeader_panicEncode]
    show locFilenameLen none % 256 = 0
    rfl
  · rw [readHeader_panicEncode]
    show 0 % 2 ^ 32 = 0
    rfl
  · rw [readHeader_panicEncode]
    show 0 % 2 ^ 32 = 0
    rfl

/-- Witness for C8 on the round-trip scenario at R = 24: filename_len 4,
line 12, column 5, and the first filename byte 'x' = 120 right after the
header. -/
theorem claim_c8_witness :
    (readHeader (encXrs 24)).filename_len = min 4 255
    ∧ (readHeader (encXrs 24)).line = 12
    ∧ encXrs 24 (metaSize + 0) = 120 :=
  ⟨(claim_c8_location_fields zeroMem 24 [msgBoom] false locXrs (by decide) (by decide)).1.1,
   (claim_c8_location_fields zeroMem 24 [msgBoom] false locXrs (by decide) (by decide)).1.2.1,
   (claim_c8_location_fields zeroMem 24 [msgBoom] false locXrs
      (by decide) (by decide)).1.2.2.2 0 (by decide)⟩

/-! ### C2: encode bounds -/

/-- Counterexample to claim C2 as stated: a region of exactly the header
size (12 bytes, which is at least the header size) together with the 4-byte
filename "x.rs" makes the panic handler's filename copy write past the end
of the region: the byte at address 13 (outside the region `[0, 12)`) is
changed from 0 to 46. -/
theorem claim_c2_counterexample :
    ¬ ∀ a, 12 ≤ a → panicEncode zeroMem 12 (some locXrs) [] true a = zeroMem a := by
  intro h
  exact absurd (h 13 (by norm_num)) (by decide)

/-- Claim C2 amended: if the region is large enough for the header plus the
clamped filename (rather than merely the header), the encode path writes
only within the region's bounds, and the stored header satisfies
`header_size + filename_len + message_len ≤ region_length`. -/
theorem claim_c2_encode_bounds (mem : Nat → Nat) (R : Nat) (loc : Option Location)
    (msgs : List (List Nat)) (minimal : Bool)
    (hb : metaSize + locFilenameLen loc ≤ R) :
    (∀ a, R ≤ a → panicEncode mem R loc msgs minimal a = mem a)
    ∧ metaSize + (readHeader (panicEncode mem R loc msgs minimal)).filename_len
        + (readHeader (panicEncode mem R loc msgs minimal)).message_len ≤ R := by
  constructor
  · intro a ha
    rw [panicEncode_ge _ _ _ _ _ _ (by omega),
      panicMem2_out _ _ _ _ _ _ (Or.inr (by omega)),
      panicMem1_out _ _ _ (Or.inr (by omega))]
  · rw [readHeader_panicEncode]
    show metaSize + locFilenameLen loc % 256
        + panicMessageLen mem R loc msgs minimal % 2 ^ 16 ≤ R
    have h1 : locFilenameLen loc % 256 = locFilenameLen loc :=
      Nat.mod_eq_of_lt (by have := locFilenameLen_le_255 loc; omega)
    have h2 := panicMessageLen_le mem R loc msgs minimal
    have h3 : panicMessageLen mem R loc msgs minimal % 2 ^ 16 ≤
        panicMessageLen mem R loc msgs minimal := Nat.mod_le _ _
    omega

/-- Witness for C2 (amended) on a 20-byte region with the round-trip
inputs: the byte beyond the region at address 25 is untouched and the stored
lengths fit. -/
theorem claim_c2_witness :
    panicEncode (fun a => a) 20 (some locXrs) [msgBoom] false 25 = 25
    ∧ metaSize
        + (readHeader (panicEncode (fun a => a) 20 (some locXrs) [msgBoom] false)).filename_len
        + (readHeader (panicEncode (fun a => a) 20 (some locXrs) [msgBoom] false)).message_len
        ≤ 20 :=
  ⟨(claim_c2_encode_bounds (fun a => a) 20 (some locXrs) [msgBoom] false (by decide)).1
      25 (by decide),
   (claim_c2_encode_bounds (fun a => a) 20 (some locXrs) [msgBoom] false (by decide)).2⟩

/-! ### C1: single-bit corruption -/

/-- Counterexample to claim C1 as stated: after a valid encode into a
24-byte zeroed region, flipping bit 0 of byte 0 — the stored filename_len, a
header byte that the checksum does not cover — still yields a record (with
filename_len corrupted from 4 to 5), not absence. -/
theorem claim_c1_counterexample :
    regionXor (encXrs 24) 24 = (readHeader (encXrs 24)).xor
    ∧ (detect_and_reset (flipBit (encXrs 24) 0 0) 24).1 = some ⟨5, 12, 5, 4, 88⟩ :=
  ⟨by decide, by decide⟩

/-- Claim C1 amended: flipping a single bit of the stored checksum byte, or
of any byte from end-of-header to end-of-region, makes `detect_and_reset`
return absence.  (Flips in the other header bytes — filename_len, line,
column, message_len — are not detected, as the counterexample shows.) -/
theorem claim_c1_flip_detected (mem : Nat → Nat) (R p b : Nat)
    (hm : mem p < 256)
    (hv : regionXor mem R = (readHeader mem).xor)
    (hb : b < 8)
    (hp : p = 11 ∨ (metaSize ≤ p ∧ p < R)) :
    (detect_and_reset (flipBit mem p b) R).1 = none := by
  rcases hp with hp | ⟨hp1, hp2⟩
  · subst hp
    have hreg : regionXor (flipBit mem 11 b) R = regionXor mem R :=
      regionXor_congr _ _ _
        (fun a ha _ => flipBit_ne mem 11 b a (by unfold metaSize at ha; omega))
    have hx : (readHeader (flipBit mem 11 b)).xor = mem 11 ^^^ 2 ^ b := by
      show flipBit mem 11 b 11 % 256 = mem 11 ^^^ 2 ^ b
      rw [flipBit_self]
      refine Nat.mod_eq_of_lt ?_
      have h1 : mem 11 < 2 ^ 8 := by omega
      have h2 : 2 ^ b < 2 ^ 8 := by
        calc 2 ^ b ≤ 2 ^ 7 := Nat.pow_le_pow_right (by norm_num) (by omega)
          _ < 2 ^ 8 := by norm_num
      have h3 := Nat.xor_lt_two_pow h1 h2
      omega
    have hst : (readHeader mem).xor = mem 11 := by
      show mem 11 % 256 = mem 11
      exact Nat.mod_eq_of_lt hm
    have hne : regionXor (flipBit mem 11 b) R ≠ (readHeader (flipBit mem 11 b)).xor := by
      rw [hreg, hx, hv, hst]
      intro hcontra
      exact xor_two_pow_ne (mem 11) b hcontra.symm
    rw [detect_eq_none _ _ hne]
  · have hreg := regionXor_flip mem R p b hp1 hp2 hm hb
    have hhead : readHeader (flipBit mem p b) = readHeader mem :=
      readHeader_congr _ _ (fun a ha => flipBit_ne mem p b a (by omega))
    have hne : regionXor (flipBit mem p b) R ≠ (readHeader (flipBit mem p b)).xor := by
      rw [hreg, hhead, hv]
      intro hcontra
      exact xor_two_pow_ne _ b hcontra
    rw [detect_eq_none _ _ hne]

/-- Witness for C1 (amended): flipping bit 3 of payload byte 13 after the
valid encode at R = 24 makes detection return absence. -/
theorem claim_c1_witness :
    (detect_and_reset (flipBit (encXrs 24) 13 3) 24).1 = none :=
  claim_c1_flip_detected (encXrs 24) 24 13 3 (by decide) (by decide) (by decide)
    (Or.inr (by decide))

/-! ### C3: the round-trip scenario -/

theorem start_xrs : metaSize + locFilenameLen (some locXrs) = 16 := rfl

theorem c3_cursor (R : Nat) (hR : 20 ≤ R) :
    panicCursor zeroMem R (some locXrs) [msgBoom] =
      ⟨msgBoom ++ List.replicate (R - 20) 0, 4⟩ := by
  have hsub : subBytes (panicMem1 zeroMem (some locXrs)) 16 (R - 16) =
      List.replicate (R - 16) 0 := by
    have h := subBytes_eq_list (panicMem1 zeroMem (some locXrs)) 16
      (List.replicate (R - 16) 0) (fun i hi => by
        rw [getD_replicate_zero,
          panicMem1_out zeroMem (some locXrs) (16 + i) (Or.inr (by rw [start_xrs]; omega))]
        rfl)
    rwa [List.length_replicate] at h
  show write_str ⟨subBytes (panicMem1 zeroMem (some locXrs)) 16 (R - 16), 0⟩ msgBoom = _
  rw [hsub]
  simp only [write_str]
  rw [List.length_replicate]
  have hml : msgBoom.length = 4 := rfl
  rw [if_pos (by rw [hml]; omega), List.take_zero, List.nil_append, List.take_length,
    List.drop_replicate, hml]
  have h20 : R - 16 - (0 + 4) = R - 20 := by omega
  rw [h20]

theorem c3_mem2 (R : Nat) (hR : 20 ≤ R) :
    panicMem2 zeroMem R (some locXrs) [msgBoom] false =
      writeBytes (panicMem1 zeroMem (some locXrs)) 16
        (msgBoom ++ List.replicate (R - 20) 0) := by
  rw [panicMem2_false, c3_cursor R hR, start_xrs]

theorem c3_cbuf_length (R : Nat) (hR : 20 ≤ R) :
    (msgBoom ++ List.replicate (R - 20) (0 : Nat)).length = R - 16 := by
  rw [List.length_append, List.length_replicate]
  have hml : msgBoom.length = 4 := rfl
  omega

theorem c3_file_bytes (R : Nat) (hR : 20 ≤ R) :
    ∀ i, i < 4 →
      panicMem2 zeroMem R (some locXrs) [msgBoom] false (metaSize + i) =
        fileXrs.getD i 0 := by
  intro i hi
  rw [c3_mem2 R hR]
  rw [writeBytes_out _ _ _ _ (Or.inl (by unfold metaSize; omega))]
  exact panicMem1_in zeroMem locXrs i (by rw [show locFilenameLen (some locXrs) = 4 from rfl]; omega)

theorem c3_msg_bytes (R : Nat) (hR : 20 ≤ R) :
    ∀ i, i < 4 →
      panicMem2 zeroMem R (some locXrs) [msgBoom] false (16 + i) = msgBoom.getD i 0 := by
  intro i hi
  rw [c3_mem2 R hR]
  rw [writeBytes_in _ _ _ _ (Nat.le_add_right _ _) (by rw [c3_cbuf_length R hR]; omega),
    Nat.add_sub_cancel_left]
  have hml : msgBoom.length = 4 := rfl
  exact List.getD_append _ _ _ _ (by omega)

theorem c3_region_xor (R : Nat) (hR : 20 ≤ R) :
    regionXor (panicMem2 zeroMem R (some locXrs) [msgBoom] false) R = 88 := by
  unfold regionXor regionTail
  have hsplit : R - metaSize = 4 + (R - 16) := by unfold metaSize; omega
  rw [hsplit, subBytes_split]
  have hsub1 : subBytes (panicMem2 zeroMem R (some locXrs) [msgBoom] false) metaSize 4 =
      fileXrs := by
    have h := subBytes_eq_list (panicMem2 zeroMem R (some locXrs) [msgBoom] false)
      metaSize fileXrs (fun i hi => by
        have hi4 : i < 4 := hi
        rw [c3_file_bytes R hR i hi4]
        interval_cases i <;> rfl)
    exact h
  have hsub2 : subBytes (panicMem2 zeroMem R (some locXrs) [msgBoom] false)
      (metaSize + 4) (R - 16) =
      (msgBoom ++ List.replicate (R - 20) 0).map (· % 256) := by
    rw [show metaSize + 4 = 16 from rfl, ← c3_cbuf_length R hR, c3_mem2 R hR,
      subBytes_writeBytes]
  rw [hsub1, hsub2, byteXor_append, List.map_append, byteXor_append, List.map_replicate,
    show (0 : Nat) % 256 = 0 from rfl, byteXor_replicate_zero, Nat.xor_zero,
    show (msgBoom.map (· % 256)) = msgBoom from rfl,
    show byteXor fileXrs = 87 from rfl, show byteXor msgBoom = 15 from rfl]
  decide

theorem c3_meta (R : Nat) (hR : 20 ≤ R) :
    panicMeta zeroMem R (some locXrs) [msgBoom] false = ⟨4, 12, 5, 4, 88⟩ := by
  have e4 : panicMessageLen zeroMem R (some locXrs) [msgBoom] false = 4 := by
    rw [panicMessageLen_false, c3_cursor R hR]
    rfl
  unfold panicMeta
  rw [e4, c3_region_xor R hR]
  rfl

theorem c3_readHeader (R : Nat) (hR : 20 ≤ R) :
    readHeader (encXrs R) = ⟨4, 12, 5, 4, 88⟩ := by
  show readHeader (panicEncode zeroMem R (some locXrs) [msgBoom] false) = _
  rw [readHeader_panicEncode, c3_meta R hR]
  rfl

theorem c3_enc_xor (R : Nat) (hR : 20 ≤ R) : regionXor (encXrs R) R = 88 := by
  show regionXor (panicEncode zeroMem R (some locXrs) [msgBoom] false) R = 88
  rw [regionXor_panicEncode]
  rw [show (panicMeta zeroMem R (some locXrs) [msgBoom] false).xor =
    regionXor (panicMem2 zeroMem R (some locXrs) [msgBoom] false) R from rfl]
  exact c3_region_xor R hR

theorem c3_detect (R : Nat) (hR : 20 ≤ R) :
    detect_and_reset (encXrs R) R =
      (some ⟨4, 12, 5, 4, 88⟩, writeBytes (encXrs R) 0 (List.replicate metaSize 0)) := by
  rw [detect_eq_some _ _ (by rw [c3_readHeader R hR, c3_enc_xor R hR]), c3_readHeader R hR]

theorem c3_consumed_tail (R : Nat) (_hR : 20 ≤ R) :
    ∀ a, metaSize ≤ a →
      writeBytes (encXrs R) 0 (List.replicate metaSize 0) a =
        panicMem2 zeroMem R (some locXrs) [msgBoom] false a := by
  intro a ha
  rw [writeBytes_out _ _ _ _ (Or.inr (by rw [List.length_replicate]; omega))]
  exact panicEncode_ge _ _ _ _ _ _ ha


theorem filename_fst (m : PanicInfoMeta) (mem : Nat → Nat) :
    (m.filename mem).1 = subBytes mem metaSize m.filename_len := rfl

theorem message_fst (m : PanicInfoMeta) (mem : Nat → Nat) :
    (m.message mem).1 = subBytes mem (metaSize + m.filename_len) m.message_len := rfl

/-- Claim C3: encoding filename "x.rs", line 12, column 5, message "boom"
into a zeroed region of any size R ≥ 20 (large enough for header, filename
and message) makes the first `detect_and_reset` return a record with exactly
those field values, whose `filename`/`message` accessors read back "x.rs"
and "boom"; a second call on the consumed region returns absence. -/
theorem claim_c3_round_trip (R : Nat) (hR : 20 ≤ R) :
    (detect_and_reset (encXrs R) R).1 = some ⟨4, 12, 5, 4, 88⟩
    ∧ (PanicInfoMeta.filename ⟨4, 12, 5, 4, 88⟩ (detect_and_reset (encXrs R) R).2).1
        = fileXrs
    ∧ (PanicInfoMeta.message ⟨4, 12, 5, 4, 88⟩ (detect_and_reset (encXrs R) R).2).1
        = msgBoom
    ∧ (detect_and_reset ((detect_and_reset (encXrs R) R).2) R).1 = none := by
  have hmem2tail := c3_consumed_tail R hR
  have hfst : (detect_and_reset (encXrs R) R).1 = some ⟨4, 12, 5, 4, 88⟩ := by
    rw [c3_detect R hR]
  have hsnd : (detect_and_reset (encXrs R) R).2 =
      writeBytes (encXrs R) 0 (List.replicate metaSize 0) := by
    rw [c3_detect R hR]
  refine ⟨hfst, ?_, ?_, ?_⟩
  · rw [filename_fst, hsnd,
      show (⟨4, 12, 5, 4, 88⟩ : PanicInfoMeta).filename_len = 4 from rfl]
    have h := subBytes_eq_list (writeBytes (encXrs R) 0 (List.replicate metaSize 0))
      metaSize fileXrs (fun i hi => by
        have hi4 : i < 4 := hi
        rw [hmem2tail (metaSize + i) (Nat.le_add_right _ _), c3_file_bytes R hR i hi4]
        interval_cases i <;> rfl)
    exact h
  · rw [message_fst, hsnd,
      show (⟨4, 12, 5, 4, 88⟩ : PanicInfoMeta).filename_len = 4 from rfl,
      show (⟨4, 12, 5, 4, 88⟩ : PanicInfoMeta).message_len = 4 from rfl]
    have h := subBytes_eq_list (writeBytes (encXrs R) 0 (List.replicate metaSize 0))
      (metaSize + 4) msgBoom (fun i hi => by
        have hi4 : i < 4 := hi
        rw [hmem2tail (metaSize + 4 + i) (by omega)]
        have h16 : metaSize + 4 + i = 16 + i := by unfold metaSize; omega
        rw [h16, c3_msg_bytes R hR i hi4]
        interval_cases i <;> rfl)
    exact h
  · rw [hsnd]
    have hrd2 : readHeader (writeBytes (encXrs R) 0 (List.replicate metaSize 0)) =
        readHeader zeroMem := by
      apply readHeader_congr
      intro a ha
      rw [writeBytes_in _ _ _ _ (Nat.zero_le a) (by rw [List.length_replicate]; omega),
        getD_replicate_zero]
      rfl
    have hx2 : regionXor (writeBytes (encXrs R) 0 (List.replicate metaSize 0)) R = 88 := by
      rw [regionXor_congr (writeBytes (encXrs R) 0 (List.replicate metaSize 0)) (encXrs R) R
        (fun a ha _ => writeBytes_out _ _ _ _ (Or.inr (by rw [List.length_replicate]; omega)))]
      exact c3_enc_xor R hR
    rw [detect_eq_none _ _ (by rw [hx2, hrd2]; decide)]

/-- Witness for C3 at R = 24. -/
theorem claim_c3_witness :
    (detect_and_reset (encXrs 24) 24).1 = some ⟨4, 12, 5, 4, 88⟩
    ∧ (detect_and_reset ((detect_and_reset (encXrs 24) 24).2) 24).1 = none :=
  ⟨(claim_c3_round_trip 24 (by norm_num)).1, (claim_c3_round_trip 24 (by norm_num)).2.2.2⟩
